import Mathlib

/-!
Verification development for the seekgzip repository (src/seekgzip.c,
src/export.cpp): a random-access reader over gzip/zlib-compressed files,
based on Mark Adler's zran.c indexing scheme.

The development shallowly embeds the index data structure, the binary
search (`findpoint`), the index builder's access-point emission loop
(`build_index`), the window linearization (`addpoint`), the extractor's
skip/deliver loop (`extract`), the error translation in `seekgzip_build`,
and the thin C++ `reader` wrapper (export.cpp).

The zlib inflate engine is an external component.  It is abstracted in two
ways, both stated where used:
  * for the builder, the sequence of `inflate(.., Z_BLOCK)` returns at
    which the emission check runs is modelled as a list of block events
    carrying the bytes produced, the compressed bytes consumed, and the
    reported `data_type` word;
  * for the extractor, the fact that an inflater primed from access point
    `p` (seek to `p.in`, prime `p.bits` bits, install `p.window` as the
    dictionary) reproduces the uncompressed stream from position `p.out`
    is taken as the specification of zlib, so the remaining input to the
    skip/deliver loop is `S.drop p.out` for the full uncompressed
    stream `S`.
-/

set_option maxRecDepth 8000

namespace Seekgzip

/-- Constant WINSIZE from seekgzip.c: sliding window size (32768). -/
def WINSIZE : Nat := 32768

/-- Constant SPAN from seekgzip.c: desired distance between access points. -/
def SPAN : Int := 1048576

/-- Constant CHUNK from seekgzip.c: file input buffer size. -/
def CHUNK : Nat := 16384

/-- Constant Z_ERRNO from zlib. -/
def Z_ERRNO : Int := -1

/-- Constant Z_DATA_ERROR from zlib. -/
def Z_DATA_ERROR : Int := -3

/-- Constant Z_MEM_ERROR from zlib. -/
def Z_MEM_ERROR : Int := -4

/-- Constant SEEKGZIP_SUCCESS from seekgzip.h. -/
def SEEKGZIP_SUCCESS : Int := 0

/-- Constant SEEKGZIP_ERROR from seekgzip.h (enum value -1024). -/
def SEEKGZIP_ERROR : Int := -1024

/-- Constant SEEKGZIP_OPENERROR from seekgzip.h. -/
def SEEKGZIP_OPENERROR : Int := -1023

/-- Constant SEEKGZIP_READERROR from seekgzip.h. -/
def SEEKGZIP_READERROR : Int := -1022

/-- Constant SEEKGZIP_WRITEERROR from seekgzip.h. -/
def SEEKGZIP_WRITEERROR : Int := -1021

/-- Constant SEEKGZIP_DATAERROR from seekgzip.h. -/
def SEEKGZIP_DATAERROR : Int := -1020

/-- Constant SEEKGZIP_OUTOFMEMORY from seekgzip.h. -/
def SEEKGZIP_OUTOFMEMORY : Int := -1019

/-- Access point entry (struct point in seekgzip.c).  `out` is the
corresponding offset in uncompressed data, `in_` the offset in the input
file of the first full byte, `bits` the number of bits (1-7) from the byte
at `in_ - 1` (or 0), and `window` the preceding 32K of uncompressed data
(stored linearized by `addpoint`). -/
structure Point where
  out : Int
  in_ : Int
  bits : Nat
  window : List Nat
deriving DecidableEq

instance : Inhabited Point := ⟨⟨0, 0, 0, []⟩⟩

/-- Uncompressed offset of the i-th point of an index (out-of-range reads
give the default point, mirroring raw array indexing only at in-range
indices, which is all the lemmas use). -/
def outAt (index : List Point) (i : Nat) : Int :=
  (index.getD i default).out

/-- Binary-search loop of `findpoint` (seekgzip.c lines 142-151), the
equivalent of std::upper_bound: `first` and `len` delimit the current
half-open search range; the result is the final value of `first`. -/
def findpoint_loop (index : List Point) (offset : Int) (first len : Nat) : Nat :=
  if h : 0 < len then
    if offset < (index.getD (first + len / 2) default).out then
      findpoint_loop index offset first (len / 2)
    else
      findpoint_loop index offset (first + len / 2 + 1) (len - len / 2 - 1)
  else
    first
termination_by len
decreasing_by
  · omega
  · omega

/-- The findpoint function of seekgzip.c (lines 136-155): binary search for
the upper bound of `offset` among the points' `out` fields, then step back
one point; NULL (none) when the upper bound is the start of the list. -/
def findpoint (index : List Point) (offset : Int) : Option Point :=
  let first := findpoint_loop index offset 0 index.length
  if first = 0 then none else some (index.getD (first - 1) default)

/-- Main invariant proof for the binary-search loop: starting from a range
`[first, first + len)` such that everything to the left of `first` is
`≤ offset` and everything at or beyond `first + len` is `> offset`, the
loop returns the index of the first point with `out > offset`. -/
lemma findpoint_loop_spec (index : List Point) (offset : Int)
    (mono : ∀ i j, i ≤ j → j < index.length → outAt index i ≤ outAt index j) :
    ∀ len first, first + len ≤ index.length →
      (∀ i, i < first → outAt index i ≤ offset) →
      (∀ i, first + len ≤ i → i < index.length → offset < outAt index i) →
      first ≤ findpoint_loop index offset first len ∧
      findpoint_loop index offset first len ≤ first + len ∧
      (∀ i, i < findpoint_loop index offset first len → outAt index i ≤ offset) ∧
      (∀ i, findpoint_loop index offset first len ≤ i → i < index.length →
        offset < outAt index i) := by
  intro len
  induction len using Nat.strong_induction_on with
  | _ len ih =>
    intro first hrange hlow hhigh
    rw [findpoint_loop]
    by_cases h : 0 < len
    · simp only [h, dif_pos]
      by_cases hcmp : offset < (index.getD (first + len / 2) default).out
      · simp only [hcmp, if_pos]
        have hmid : offset < outAt index (first + len / 2) := hcmp
        have hrec := ih (len / 2) (by omega) first (by omega) hlow ?_
        · exact ⟨hrec.1, by omega, hrec.2.2.1, hrec.2.2.2⟩
        · intro i hi hilen
          by_cases hlt : first + len ≤ i
          · exact hhigh i hlt hilen
          · exact lt_of_lt_of_le hmid (mono (first + len / 2) i (by omega) hilen)
      · simp only [hcmp, if_neg, not_false_iff]
        have hmid : outAt index (first + len / 2) ≤ offset := le_of_not_lt hcmp
        have hrec := ih (len - len / 2 - 1) (by omega) (first + len / 2 + 1)
          (by omega) ?_ ?_
        · refine ⟨by omega, by omega, hrec.2.2.1, hrec.2.2.2⟩
        · intro i hi
          by_cases hlt : i < first
          · exact hlow i hlt
          · have hmidlen : first + len / 2 < index.length := by omega
            exact le_trans (mono i (first + len / 2) (by omega) hmidlen) hmid
        · intro i hi hilen
          exact hhigh i (by omega) hilen
    · simp only [h, dif_neg, not_false_iff]
      exact ⟨le_refl _, by omega, fun i hi => hlow i hi, fun i hi hilen => hhigh i (by omega) hilen⟩

/-- Specification of findpoint on an index whose out offsets are
monotone: it returns none exactly when the offset precedes the first
point's out, and otherwise returns the point at the position one before
the upper bound of offset. -/
lemma findpoint_spec (index : List Point) (offset : Int) (hne : index ≠ [])
    (mono : ∀ i j, i ≤ j → j < index.length → outAt index i ≤ outAt index j) :
    (findpoint index offset = none ↔ offset < outAt index 0) ∧
    (∀ p, findpoint index offset = some p →
      ∃ r, r < index.length ∧ p = index.getD r default ∧
        outAt index r ≤ offset ∧
        (∀ i, i < index.length → outAt index i ≤ offset → outAt index i ≤ outAt index r)) := by
  have hlen : 0 < index.length := List.length_pos.mpr hne
  have hspec := findpoint_loop_spec index offset mono index.length 0 (by omega)
    (fun i hi => absurd hi (Nat.not_lt_zero i))
    (fun i hi hilen => absurd hilen (by omega))
  set ub := findpoint_loop index offset 0 index.length with hub
  constructor
  · constructor
    · intro hn
      have : ub = 0 := by
        by_contra hub0
        simp only [findpoint, ← hub] at hn
        rw [if_neg hub0] at hn
        exact Option.some_ne_none _ hn
      have := hspec.2.2.2 0 (by omega) hlen
      exact this
    · intro hlt
      have hub0 : ub = 0 := by
        by_contra hub0
        have h1 : outAt index (ub - 1) ≤ offset := hspec.2.2.1 (ub - 1) (by omega)
        have h2 : outAt index 0 ≤ outAt index (ub - 1) := by
          apply mono 0 (ub - 1) (by omega)
          omega
        omega
      simp only [findpoint, ← hub, hub0, if_pos]
  · intro p hp
    simp only [findpoint, ← hub] at hp
    by_cases hub0 : ub = 0
    · rw [if_pos hub0] at hp
      exact absurd hp (by simp)
    · rw [if_neg hub0] at hp
      refine ⟨ub - 1, by omega, (Option.some.injEq _ _).mp hp.symm, hspec.2.2.1 (ub - 1) (by omega), ?_⟩
      intro i hilen hile
      by_cases hiub : i < ub
      · exact mono i (ub - 1) (by omega) (by omega)
      · exact absurd hile (not_le.mpr (hspec.2.2.2 i (by omega) hilen))

/-- Pairwise monotonicity of the points' out offsets gives indexed
monotonicity over in-range positions. -/
lemma mono_of_pairwise {index : List Point}
    (hp : index.Pairwise (fun p q => p.out ≤ q.out)) :
    ∀ i j, i ≤ j → j < index.length → outAt index i ≤ outAt index j := by
  intro i j hij hj
  have hi : i < index.length := lt_of_le_of_lt hij hj
  rcases Nat.eq_or_lt_of_le hij with heq | hlt
  · subst heq; exact le_refl _
  · have h := List.pairwise_iff_getElem.mp hp i j hi hj hlt
    unfold outAt
    rw [List.getD_eq_getElem _ _ hi, List.getD_eq_getElem _ _ hj]
    exact h

/-- Skip/deliver loop of `extract` (seekgzip.c lines 320-373), abstracted
over the zlib engine: `stream` is the uncompressed data that the freshly
primed inflater will produce from the chosen access point onward, `offset`
the remaining number of bytes to skip (`offset -= here->out` in the code),
and `len` the caller's request.  The loop discards up to WINSIZE bytes per
pass into the scratch buffer; once the offset is reached it redirects
output into the caller's buffer.  If the stream ends while skipping, the
code leaves `skip` set and returns 0; otherwise it returns
`len - avail_out`, the number of bytes delivered. -/
def extract_loop (stream : List Nat) (offset len : Nat) : Int × List Nat :=
  if offset = 0 then
    ((min len stream.length : Nat), stream.take len)
  else if WINSIZE < offset then
    if stream.length < WINSIZE then (0, [])
    else extract_loop (stream.drop WINSIZE) (offset - WINSIZE) len
  else
    if stream.length < offset then (0, [])
    else extract_loop (stream.drop offset) 0 len
termination_by offset
decreasing_by
  · simp only [WINSIZE]; omega
  · omega

/-- The extract function of seekgzip.c (lines 271-379).  The negative
length guard and the findpoint dispatch follow the code; the zlib resume
semantics (inflateInit2 raw, fseeko to `here.in_` minus one byte when
`here.bits` is nonzero, inflatePrime with the high bits of that byte,
inflateSetDictionary with the stored window) are abstracted by the
assumption that the resumed inflater reproduces the uncompressed stream
`S` from position `here.out`, so the loop consumes `S.drop here.out`.
The pair returned is (return value, bytes written to the buffer). -/
def extract (S : List Nat) (index : List Point) (offset len : Int) : Int × List Nat :=
  if len < 0 then (0, [])
  else
    match findpoint index offset with
    | none => (0, [])
    | some here => extract_loop (S.drop here.out.toNat) (offset - here.out).toNat len.toNat

/-- Closed form of the skip/deliver loop: it always delivers the requested
slice of the remaining stream, clipped to the stream length. -/
lemma extract_loop_eq (offset : Nat) : ∀ (stream : List Nat) (len : Nat),
    extract_loop stream offset len =
      (((min len (stream.length - offset) : Nat) : Int), (stream.drop offset).take len) := by
  induction offset using Nat.strong_induction_on with
  | _ offset ih =>
    intro stream len
    rw [extract_loop]
    by_cases h0 : offset = 0
    · simp [h0]
    · simp only [h0, if_neg, not_false_iff]
      by_cases hW : WINSIZE < offset
      · simp only [hW, if_pos]
        by_cases hend : stream.length < WINSIZE
        · rw [if_pos hend]
          have h1 : stream.length - offset = 0 := by omega
          have h2 : stream.drop offset = [] :=
            List.drop_eq_nil_of_le (by omega)
          simp [h1, h2]
        · rw [if_neg hend]
          rw [ih (offset - WINSIZE) (by simp only [WINSIZE] at hW ⊢; omega)]
          rw [List.drop_drop, List.length_drop]
          have harith : stream.length - WINSIZE - (offset - WINSIZE) = stream.length - offset := by
            omega
          have hidx : WINSIZE + (offset - WINSIZE) = offset := by omega
          rw [harith, hidx]
      · simp only [hW, if_neg, not_false_iff]
        by_cases hend : stream.length < offset
        · rw [if_pos hend]
          have h1 : stream.length - offset = 0 := by omega
          have h2 : stream.drop offset = [] :=
            List.drop_eq_nil_of_le (by omega)
          simp [h1, h2]
        · rw [if_neg hend]
          rw [ih 0 (by omega)]
          simp [List.length_drop]

/-- Query session state (struct tag_seekgzip in seekgzip.c): the in-memory
index and the uncompressed cursor.  The FILE pointer is abstracted by the
full uncompressed stream `S` passed to `seekgzip_read`. -/
structure SeekgzipT where
  index : List Point
  offset : Int

/-- The seekgzip_seek function (seekgzip.c lines 617-620): stores the
cursor without validation. -/
def seekgzip_seek (zs : SeekgzipT) (offset : Int) : SeekgzipT :=
  { zs with offset := offset }

/-- The seekgzip_tell function (seekgzip.c lines 622-625). -/
def seekgzip_tell (zs : SeekgzipT) : Int :=
  zs.offset

/-- The seekgzip_read function (seekgzip.c lines 627-634): extract from the
cursor, and advance the cursor when the return value is positive.  Returns
the updated session, the return value, and the bytes written. -/
def seekgzip_read (S : List Nat) (zs : SeekgzipT) (size : Int) :
    SeekgzipT × Int × List Nat :=
  let r := extract S zs.index zs.offset size
  (if 0 < r.1 then { zs with offset := zs.offset + r.1 } else zs, r)

/-- C2: on an index whose points are sorted strictly increasing by out and
for every offset, findpoint returns the point with the greatest out that is
at most the offset; it returns none exactly when the offset is strictly
less than the first point's out, and in the none case the extractor
returns 0 (and writes nothing). -/
theorem findpoint_greatest_le (index : List Point) (offset : Int)
    (hne : index ≠ [])
    (hstrict : index.Pairwise (fun p q => p.out < q.out)) :
    (∀ p, findpoint index offset = some p →
      p ∈ index ∧ p.out ≤ offset ∧ ∀ q ∈ index, q.out ≤ offset → q.out ≤ p.out) ∧
    (findpoint index offset = none ↔ offset < (index.getD 0 default).out) ∧
    (findpoint index offset = none → ∀ S len, extract S index offset len = (0, [])) := by
  have mono := mono_of_pairwise (hstrict.imp (fun h => le_of_lt h))
  have hspec := findpoint_spec index offset hne mono
  refine ⟨?_, hspec.1, ?_⟩
  · intro p hp
    obtain ⟨r, hr, hpr, hle, hmax⟩ := hspec.2 p hp
    have hmem : p ∈ index := by
      rw [hpr, List.getD_eq_getElem _ _ hr]
      exact List.getElem_mem hr
    have hout : p.out ≤ offset := by rw [hpr]; exact hle
    refine ⟨hmem, hout, ?_⟩
    intro q hq hqle
    obtain ⟨i, hi, hqi⟩ := List.mem_iff_getElem.mp hq
    have h1 : outAt index i ≤ offset := by
      unfold outAt
      rw [List.getD_eq_getElem _ _ hi, hqi]
      exact hqle
    have h2 := hmax i hi h1
    have hq' : q.out = outAt index i := by
      unfold outAt
      rw [List.getD_eq_getElem _ _ hi, hqi]
    have hp' : p.out = outAt index r := by rw [hpr]; rfl
    omega
  · intro hn S len
    simp [extract, hn]

/-- Concrete two-point index used to witness the findpoint claim. -/
def c2Index : List Point :=
  [{ out := 0, in_ := 10, bits := 0, window := List.replicate WINSIZE 0 },
   { out := 5, in_ := 37, bits := 3, window := List.replicate WINSIZE 1 }]

/-- Witness for the findpoint claim at offset 3 on a two-point index. -/
theorem findpoint_greatest_le_witness :
    (∀ p, findpoint c2Index 3 = some p →
      p ∈ c2Index ∧ p.out ≤ 3 ∧ ∀ q ∈ c2Index, q.out ≤ 3 → q.out ≤ p.out) ∧
    (findpoint c2Index 3 = none ↔ (3 : Int) < (c2Index.getD 0 default).out) ∧
    (findpoint c2Index 3 = none → ∀ S len, extract S c2Index 3 len = (0, [])) :=
  findpoint_greatest_le c2Index 3 (by decide) (by decide)

/-- C1: for a session over a well-formed file with its built index (the
index is nonempty, sorted by out, starts at out 0, and its out offsets lie
within the uncompressed stream S), seeking to o and reading L bytes
delivers exactly the bytes of the full decompressed stream in the range
from o to o + L, clipped to the stream length, and returns their count. -/
theorem seekgzip_read_slice (S : List Nat) (zs : SeekgzipT) (o L : Int)
    (ho : 0 ≤ o) (hL : 0 ≤ L) (hne : zs.index ≠ [])
    (hpair : zs.index.Pairwise (fun p q => p.out ≤ q.out))
    (hfirst : (zs.index.getD 0 default).out = 0)
    (hbound : ∀ p ∈ zs.index, 0 ≤ p.out ∧ p.out ≤ (S.length : Int)) :
    (seekgzip_read S (seekgzip_seek zs o) L).2.2 = (S.drop o.toNat).take L.toNat ∧
    (seekgzip_read S (seekgzip_seek zs o) L).2.1 =
      ((min L.toNat (S.length - o.toNat) : Nat) : Int) := by
  have mono := mono_of_pairwise hpair
  have hspec := findpoint_spec zs.index o hne mono
  cases hfp : findpoint zs.index o with
  | none =>
    exfalso
    have hlt := hspec.1.mp hfp
    have : outAt zs.index 0 = 0 := hfirst
    omega
  | some p =>
    obtain ⟨r, hr, hpr, hle, _⟩ := hspec.2 p hfp
    have hmem : p ∈ zs.index := by
      rw [hpr, List.getD_eq_getElem _ _ hr]
      exact List.getElem_mem hr
    obtain ⟨hp0, hpS⟩ := hbound p hmem
    have hout : p.out ≤ o := by rw [hpr]; exact hle
    have hread : seekgzip_read S (seekgzip_seek zs o) L =
        (if 0 < (extract S zs.index o L).1
          then { seekgzip_seek zs o with offset := o + (extract S zs.index o L).1 }
          else seekgzip_seek zs o, extract S zs.index o L) := by
      simp [seekgzip_read, seekgzip_seek]
    have hex : extract S zs.index o L =
        extract_loop (S.drop p.out.toNat) (o - p.out).toNat L.toNat := by
      simp [extract, hfp, not_lt.mpr hL]
    rw [hread, hex, extract_loop_eq]
    have harr : p.out.toNat + (o - p.out).toNat = o.toNat := by omega
    have hlen : p.out.toNat ≤ S.length := by omega
    constructor
    · simp only [List.drop_drop, harr]
    · simp only [List.length_drop]
      have : S.length - p.out.toNat - (o - p.out).toNat = S.length - o.toNat := by omega
      rw [this]

/-- Concrete index used to witness the read-slice claim. -/
def c1Index : List Point :=
  [{ out := 0, in_ := 10, bits := 0, window := List.replicate WINSIZE 0 },
   { out := 4, in_ := 30, bits := 5, window := List.replicate WINSIZE 1 }]

/-- Concrete uncompressed stream used to witness the read-slice claim. -/
def c1S : List Nat := [3, 1, 4, 1, 5, 9, 2, 6]

/-- Concrete session used to witness the read-slice claim. -/
def c1Zs : SeekgzipT := { index := c1Index, offset := 0 }

/-- Witness for the read-slice claim: seek to 5 and read 2 bytes out of an
8-byte stream through a two-point index. -/
theorem seekgzip_read_slice_witness :
    (seekgzip_read c1S (seekgzip_seek c1Zs 5) 2).2.2 =
      (c1S.drop (5 : Int).toNat).take (2 : Int).toNat ∧
    (seekgzip_read c1S (seekgzip_seek c1Zs 5) 2).2.1 =
      ((min (2 : Int).toNat (c1S.length - (5 : Int).toNat) : Nat) : Int) :=
  seekgzip_read_slice c1S c1Zs 5 2 (by decide) (by decide) (by decide) (by decide)
    (by decide) (by decide)

/-- Window linearization performed by `addpoint` (seekgzip.c lines
125-128) with `left` the current `strm.avail_out`: when `left` is nonzero,
copy `left` bytes starting at `window + WINSIZE - left`; when `left` is
less than WINSIZE, follow with the first `WINSIZE - left` bytes of
`window`. -/
def storedWindow (left : Nat) (window : List Nat) : List Nat :=
  (if left ≠ 0 then (window.drop (WINSIZE - left)).take left else []) ++
  (if left < WINSIZE then window.take (WINSIZE - left) else [])

/-- The addpoint function of seekgzip.c (lines 91-133), restricted to the
entry actually stored (the list-growth bookkeeping is the surrounding
container): records bits, in, out, and the linearized window. -/
def addpointModel (bits : Nat) (in_ out : Int) (left : Nat) (window : List Nat) : Point :=
  { out := out, in_ := in_, bits := bits, window := storedWindow left window }

/-- Circular-buffer write used by build_index: zlib inflates into the 32K
`window` buffer; at the top of each inner iteration, when `avail_out` is
0, the buffer is rewound (`avail_out = WINSIZE; next_out = window`,
seekgzip.c lines 208-211), and each produced byte lands at position
`WINSIZE - avail_out`, decrementing `avail_out`.  Returns the final buffer
contents and `avail_out`. -/
def ringWrite (window : List Nat) (availOut : Nat) : List Nat → List Nat × Nat
  | [] => (window, availOut)
  | b :: bs =>
    let a := if availOut = 0 then WINSIZE else availOut
    ringWrite (window.set (WINSIZE - a) b) (a - 1) bs

/-- Block event: one return of `inflate(.., Z_BLOCK)` at which build_index
runs its emission check (seekgzip.c lines 236-245).  `outBytes` is the
uncompressed data produced since the previous event, `inLen` the
compressed bytes consumed, and `dataType` the reported `strm.data_type`
word (bit 7: at end of a block; bit 6: at end of the last block; bits
0-2: number of unprocessed bits in the current byte). -/
structure BlockEv where
  outBytes : List Nat
  inLen : Nat
  dataType : Nat
deriving DecidableEq

/-- Builder state threaded through build_index's loop (seekgzip.c lines
166-247): the two 64-bit counters, the `last` out offset of the most
recently emitted point, the circular window with its `avail_out`, and the
index built so far. -/
structure BuilderSt where
  totin : Int
  totout : Int
  last : Int
  window : List Nat
  availOut : Nat
  index : List Point
deriving DecidableEq

/-- One pass of build_index's emission logic for one block event: update
the window and the counters with what inflate produced, then, when at a
block boundary (data_type bit 7) that is not the end of the last block
(bit 6 clear) and `totout == 0 || totout - last > span`, append an access
point with `bits = data_type & 7`, the current counters, and the window
linearized at the current `avail_out` (seekgzip.c lines 236-245).  The
eager rewind at the top of the inner loop (lines 208-211) is applied
before writing. -/
def buildStep (span : Int) (st : BuilderSt) (ev : BlockEv) : BuilderSt :=
  let wr := ringWrite st.window (if st.availOut = 0 then WINSIZE else st.availOut) ev.outBytes
  let totin' := st.totin + (ev.inLen : Int)
  let totout' := st.totout + (ev.outBytes.length : Int)
  if ev.dataType &&& 128 ≠ 0 ∧ ev.dataType &&& 64 = 0 ∧
      (totout' = 0 ∨ totout' - st.last > span) then
    { totin := totin', totout := totout', last := totout',
      window := wr.1, availOut := wr.2,
      index := st.index ++ [addpointModel (ev.dataType &&& 7) totin' totout' wr.2 wr.1] }
  else
    { totin := totin', totout := totout', last := st.last,
      window := wr.1, availOut := wr.2, index := st.index }

/-- Initial builder state (seekgzip.c lines 189-191): counters and `last`
zero, no index yet, `avail_out = 0` so the first iteration rewinds the
(uninitialized, here `w0`) window buffer. -/
def buildInit (w0 : List Nat) : BuilderSt :=
  { totin := 0, totout := 0, last := 0, window := w0, availOut := 0, index := [] }

/-- The build_index loop of seekgzip.c over an abstract trace of
`inflate(.., Z_BLOCK)` returns.  The trace contains the returns at which
the emission check runs; the return that reports Z_STREAM_END exits the
loop before the check (lines 224-225) and is therefore not part of the
trace (an end-of-last-block boundary return that precedes it is, and is
rejected by the bit-6 guard). -/
def build_run (span : Int) (w0 : List Nat) (trace : List BlockEv) : BuilderSt :=
  trace.foldl (buildStep span) (buildInit w0)

/-- C3 (amended): during index building, a point is emitted at a block
event precisely when the event is a detected block boundary (data_type
bit 7), is not the end of the last block (bit 6 clear), and
`totout == 0 || totout - last > span` — with strict inequality, not the
claimed `totout - last ≥ span`; `last` is then set to totout. -/
theorem buildStep_emits_iff (span : Int) (st : BuilderSt) (ev : BlockEv) :
    ((buildStep span st ev).index.length = st.index.length + 1 ↔
      (ev.dataType &&& 128 ≠ 0 ∧ ev.dataType &&& 64 = 0 ∧
        (st.totout + (ev.outBytes.length : Int) = 0 ∨
         st.totout + (ev.outBytes.length : Int) - st.last > span))) ∧
    ((ev.dataType &&& 128 ≠ 0 ∧ ev.dataType &&& 64 = 0 ∧
        (st.totout + (ev.outBytes.length : Int) = 0 ∨
         st.totout + (ev.outBytes.length : Int) - st.last > span)) →
      (buildStep span st ev).last = st.totout + (ev.outBytes.length : Int)) := by
  by_cases hcond : ev.dataType &&& 128 ≠ 0 ∧ ev.dataType &&& 64 = 0 ∧
      (st.totout + (ev.outBytes.length : Int) = 0 ∨
       st.totout + (ev.outBytes.length : Int) - st.last > span)
  · simp [buildStep, hcond]
  · simp [buildStep, hcond]

/-- Builder state reached mid-run: the header point (out 0) has been
emitted, `last` is 0, and exactly span (1048576 = 32 * WINSIZE) bytes of
output have gone by, so `avail_out` has just wrapped to 0. -/
def c3St : BuilderSt :=
  { totin := 524288, totout := 1048576, last := 0,
    window := List.replicate WINSIZE 0, availOut := 0,
    index := [{ out := 0, in_ := 10, bits := 0, window := List.replicate WINSIZE 0 }] }

/-- Block event for the counterexample: an empty deflate block boundary
(such as a sync-flush block), not the last block, reached when
`totout - last` equals span exactly. -/
def c3Ev : BlockEv := { outBytes := [], inLen := 64, dataType := 128 }

/-- Counterexample to the claim as stated: at a detected deflate block
boundary that is not the end of the last block, with
`totout - last ≥ span` holding with equality, build_index emits no access
point, because the code's test `totout - last > span` is strict. -/
theorem c3_counterexample :
    c3Ev.dataType &&& 128 ≠ 0 ∧ c3Ev.dataType &&& 64 = 0 ∧
    c3St.totout + (c3Ev.outBytes.length : Int) - c3St.last ≥ SPAN ∧
    (buildStep SPAN c3St c3Ev).index.length = c3St.index.length := by
  refine ⟨by decide, by decide, by decide, ?_⟩
  have hcond : ¬ (c3Ev.dataType &&& 128 ≠ 0 ∧ c3Ev.dataType &&& 64 = 0 ∧
      (c3St.totout + (c3Ev.outBytes.length : Int) = 0 ∨
       c3St.totout + (c3Ev.outBytes.length : Int) - c3St.last > SPAN)) := by
    decide
  simp [buildStep, hcond]

/-- C4 (amended): whenever the builder emits an access point, the stored
window is the circular buffer linearized into chronological order by
copying `avail_out` bytes starting at `buf + WINSIZE - avail_out`,
followed by the first `WINSIZE - avail_out` bytes of `buf`; when
`avail_out == WINSIZE` the leading WINSIZE bytes are used unrotated. -/
theorem addpoint_window_linearized (bits : Nat) (in_ out : Int) (left : Nat)
    (window : List Nat) (hw : window.length = WINSIZE) (hleft : left ≤ WINSIZE) :
    (addpointModel bits in_ out left window).window =
      window.drop (WINSIZE - left) ++ window.take (WINSIZE - left) ∧
    (left = WINSIZE → (addpointModel bits in_ out left window).window = window) := by
  have hdl : (window.drop (WINSIZE - left)).length = left := by
    rw [List.length_drop, hw]; omega
  have hmain : (addpointModel bits in_ out left window).window =
      window.drop (WINSIZE - left) ++ window.take (WINSIZE - left) := by
    show storedWindow left window = _
    unfold storedWindow
    by_cases h0 : left = 0
    · subst h0
      have hnil : window.drop WINSIZE = [] :=
        List.drop_eq_nil_of_le (by omega)
      have hpos : 0 < WINSIZE := by norm_num [WINSIZE]
      simp [hnil, hpos]
    · rw [if_pos h0, List.take_of_length_le (le_of_eq hdl)]
      by_cases hW : left < WINSIZE
      · rw [if_pos hW]
      · have hEq : left = WINSIZE := by omega
        subst hEq
        rw [if_neg hW]
        simp
  refine ⟨hmain, ?_⟩
  intro hEq
  subst hEq
  rw [hmain]
  simp [List.take_of_length_le (le_of_eq hw)]

/-- Witness for the amended window-linearization claim at
`avail_out = 5` on a constant window. -/
theorem addpoint_window_linearized_witness :
    (addpointModel 0 0 0 5 (List.replicate WINSIZE 2)).window =
      (List.replicate WINSIZE 2).drop (WINSIZE - 5) ++
        (List.replicate WINSIZE 2).take (WINSIZE - 5) ∧
    (5 = WINSIZE →
      (addpointModel 0 0 0 5 (List.replicate WINSIZE 2)).window =
        List.replicate WINSIZE 2) :=
  addpoint_window_linearized 0 0 0 5 (List.replicate WINSIZE 2)
    (by simp) (by norm_num [WINSIZE])

/-- Window linearization as the claim words it: copy `WINSIZE - avail_out`
bytes starting at `buf + WINSIZE - avail_out`, followed by the first
`avail_out` bytes of `buf` (stated from the specification's words for
comparison with the code's `storedWindow`). -/
def specWindow (left : Nat) (window : List Nat) : List Nat :=
  (window.drop (WINSIZE - left)).take (WINSIZE - left) ++ window.take left

/-- Counterexample to the claim as stated: at `avail_out = 1` the window
stored by addpoint (32768 bytes) differs from the claim's formula, whose
two copies amount to only 2 bytes — the claim swaps the two copy
lengths. -/
theorem c4_counterexample :
    (addpointModel 0 0 0 1 (List.replicate WINSIZE 0)).window ≠
      specWindow 1 (List.replicate WINSIZE 0) := by
  intro h
  have hlen := congrArg List.length h
  simp only [addpointModel, storedWindow, specWindow, List.length_append,
    List.length_take, List.length_drop, List.length_replicate] at hlen
  norm_num [WINSIZE] at hlen

/-- Writing into the circular buffer never changes its length. -/
lemma ringWrite_length (bs : List Nat) : ∀ (window : List Nat) (availOut : Nat),
    (ringWrite window availOut bs).1.length = window.length := by
  induction bs with
  | nil => intro w a; rfl
  | cons b bs ih =>
    intro w a
    rw [ringWrite]
    rw [ih]
    simp

/-- The circular buffer's avail_out stays at most WINSIZE. -/
lemma ringWrite_availOut_le (bs : List Nat) : ∀ (window : List Nat) (availOut : Nat),
    availOut ≤ WINSIZE → (ringWrite window availOut bs).2 ≤ WINSIZE := by
  induction bs with
  | nil => intro w a h; exact h
  | cons b bs ih =>
    intro w a h
    rw [ringWrite]
    apply ih
    split <;> omega

/-- The linearized window stored by addpoint is exactly WINSIZE bytes. -/
lemma storedWindow_length (left : Nat) (window : List Nat)
    (hw : window.length = WINSIZE) (hleft : left ≤ WINSIZE) :
    (storedWindow left window).length = WINSIZE := by
  have hpos : 0 < WINSIZE := by norm_num [WINSIZE]
  unfold storedWindow
  rw [List.length_append]
  by_cases h0 : left = 0
  · rw [if_neg (by omega), if_pos (by omega)]
    simp only [List.length_nil, List.length_take, hw]
    omega
  · rw [if_pos h0]
    by_cases hW : left < WINSIZE
    · rw [if_pos hW]
      simp only [List.length_take, List.length_drop, hw]
      omega
    · rw [if_neg hW]
      simp only [List.length_take, List.length_drop, hw, List.length_nil]
      omega

/-- Ordering that holds between consecutive emitted out offsets: strictly
increasing, except that consecutive points may both sit at out = 0
(boundaries of empty leading deflate blocks are all emitted through the
`totout == 0` disjunct). -/
def relOut (a b : Int) : Prop := a < b ∨ (a = b ∧ a = 0)

instance (a b : Int) : Decidable (relOut a b) := by
  unfold relOut
  infer_instance

/-- Invariant maintained by build_index's loop over the builder state. -/
structure BuildInv (st : BuilderSt) : Prop where
  totout_nonneg : 0 ≤ st.totout
  last_nonneg : 0 ≤ st.last
  last_le : st.last ≤ st.totout
  last_tracks : (st.index.map Point.out).getLast? = some st.last ∨
    (st.index = [] ∧ st.last = 0)
  chain : List.Chain' relOut (st.index.map Point.out)
  outs_nonneg : ∀ p ∈ st.index, 0 ≤ p.out
  outs_le : ∀ p ∈ st.index, p.out ≤ st.totout
  bits_le : ∀ p ∈ st.index, p.bits ≤ 7
  window_len : st.window.length = WINSIZE
  avail_le : st.availOut ≤ WINSIZE
  windows_len : ∀ p ∈ st.index, p.window.length = WINSIZE

/-- One builder step preserves the invariant. -/
lemma buildStep_preserves (span : Int) (hspan : 0 ≤ span)
    (st : BuilderSt) (ev : BlockEv) (h : BuildInv st) :
    BuildInv (buildStep span st ev) := by
  have hwr1 : (ringWrite st.window
      (if st.availOut = 0 then WINSIZE else st.availOut) ev.outBytes).1.length = WINSIZE := by
    rw [ringWrite_length]; exact h.window_len
  have hwr2 : (ringWrite st.window
      (if st.availOut = 0 then WINSIZE else st.availOut) ev.outBytes).2 ≤ WINSIZE := by
    apply ringWrite_availOut_le
    have := h.avail_le
    split <;> omega
  have htotout : st.totout ≤ st.totout + (ev.outBytes.length : Int) := by
    have : (0 : Int) ≤ (ev.outBytes.length : Int) := Int.ofNat_nonneg _
    omega
  have hto := h.totout_nonneg
  have hln := h.last_nonneg
  have hll := h.last_le
  unfold buildStep
  by_cases hcond : ev.dataType &&& 128 ≠ 0 ∧ ev.dataType &&& 64 = 0 ∧
      (st.totout + (ev.outBytes.length : Int) = 0 ∨
       st.totout + (ev.outBytes.length : Int) - st.last > span)
  · rw [if_pos hcond]
    have hlastrel : relOut st.last (st.totout + (ev.outBytes.length : Int)) := by
      rcases hcond.2.2 with h0 | hgt
      · right
        constructor <;> omega
      · left; omega
    refine ⟨?_, ?_, ?_, ?_, ?_, ?_, ?_, ?_, ?_, ?_, ?_⟩ <;> simp only
    · omega
    · omega
    · omega
    · left
      rw [List.map_append]
      exact List.getLast?_concat _
    · rw [List.map_append]
      rw [List.chain'_append]
      refine ⟨h.chain, List.chain'_singleton _, ?_⟩
      intro x hx y hy
      simp only [List.map_cons, List.map_nil, List.head?_cons, Option.mem_def,
        Option.some.injEq, addpointModel] at hy
      rcases h.last_tracks with htr | ⟨hnil, hl0⟩
      · rw [htr] at hx
        simp only [Option.mem_def, Option.some.injEq] at hx
        subst hx
        subst hy
        exact hlastrel
      · rw [hnil] at hx
        simp at hx
    · intro p hp
      rcases List.mem_append.mp hp with hmem | hmem
      · exact h.outs_nonneg p hmem
      · simp only [List.mem_singleton] at hmem
        subst hmem
        simp only [addpointModel]
        omega
    · intro p hp
      rcases List.mem_append.mp hp with hmem | hmem
      · have := h.outs_le p hmem
        omega
      · simp only [List.mem_singleton] at hmem
        subst hmem
        simp [addpointModel]
    · intro p hp
      rcases List.mem_append.mp hp with hmem | hmem
      · exact h.bits_le p hmem
      · simp only [List.mem_singleton] at hmem
        subst hmem
        simp only [addpointModel]
        exact Nat.and_le_right
    · exact hwr1
    · exact hwr2
    · intro p hp
      rcases List.mem_append.mp hp with hmem | hmem
      · exact h.windows_len p hmem
      · simp only [List.mem_singleton] at hmem
        subst hmem
        simp only [addpointModel]
        exact storedWindow_length _ _ hwr1 hwr2
  · rw [if_neg hcond]
    refine ⟨?_, h.last_nonneg, ?_, h.last_tracks, h.chain, h.outs_nonneg, ?_,
      h.bits_le, hwr1, hwr2, h.windows_len⟩ <;> simp only
    · omega
    · omega
    · intro p hp
      have := h.outs_le p hp
      omega

/-- The initial builder state satisfies the invariant when the window
buffer has the right size. -/
lemma buildInit_inv (w0 : List Nat) (hw : w0.length = WINSIZE) :
    BuildInv (buildInit w0) := by
  refine ⟨le_refl _, le_refl _, le_refl _, Or.inr ⟨rfl, rfl⟩, ?_, ?_, ?_, ?_, hw, ?_, ?_⟩ <;>
    simp [buildInit, WINSIZE]

/-- Folding builder steps preserves the invariant. -/
lemma foldl_buildStep_inv (span : Int) (hspan : 0 ≤ span) :
    ∀ (trace : List BlockEv) (st : BuilderSt), BuildInv st →
      BuildInv (trace.foldl (buildStep span) st) := by
  intro trace
  induction trace with
  | nil => intro st h; exact h
  | cons ev rest ih =>
    intro st h
    exact ih _ (buildStep_preserves span hspan st ev h)

/-- A builder step never shrinks the index. -/
lemma buildStep_index_le (span : Int) (st : BuilderSt) (ev : BlockEv) :
    st.index.length ≤ (buildStep span st ev).index.length := by
  unfold buildStep
  by_cases hcond : ev.dataType &&& 128 ≠ 0 ∧ ev.dataType &&& 64 = 0 ∧
      (st.totout + (ev.outBytes.length : Int) = 0 ∨
       st.totout + (ev.outBytes.length : Int) - st.last > span)
  · rw [if_pos hcond]
    simp
  · rw [if_neg hcond]

/-- Folding builder steps never shrinks the index. -/
lemma foldl_buildStep_index_le (span : Int) :
    ∀ (trace : List BlockEv) (st : BuilderSt),
      st.index.length ≤ (trace.foldl (buildStep span) st).index.length := by
  intro trace
  induction trace with
  | nil => intro st; exact le_refl _
  | cons ev rest ih =>
    intro st
    exact le_trans (buildStep_index_le span st ev) (ih _)

/-- C5 (amended): for every index produced by a successful build on a
well-formed input (the trace starts with the post-header boundary return,
which reports a block boundary, not the last block, and no output yet),
the points' out offsets are ordered by `relOut` — strictly increasing
except that consecutive points may both sit at out = 0, emitted at
boundaries of empty leading blocks — every point's bits lies in [0, 7],
every point's window is exactly 32768 bytes, and the index contains at
least one point. -/
theorem build_run_index_invariants (span : Int) (hspan : 0 ≤ span)
    (w0 : List Nat) (hw : w0.length = WINSIZE)
    (e0 : BlockEv) (rest : List BlockEv)
    (h128 : e0.dataType &&& 128 ≠ 0) (h64 : e0.dataType &&& 64 = 0)
    (hout : e0.outBytes = []) :
    List.Chain' relOut ((build_run span w0 (e0 :: rest)).index.map Point.out) ∧
    (∀ p ∈ (build_run span w0 (e0 :: rest)).index, p.bits ≤ 7) ∧
    (∀ p ∈ (build_run span w0 (e0 :: rest)).index, p.window.length = WINSIZE) ∧
    (build_run span w0 (e0 :: rest)).index ≠ [] := by
  have hinv : BuildInv (build_run span w0 (e0 :: rest)) :=
    foldl_buildStep_inv span hspan (e0 :: rest) (buildInit w0) (buildInit_inv w0 hw)
  refine ⟨hinv.chain, hinv.bits_le, hinv.windows_len, ?_⟩
  have hstep : (buildStep span (buildInit w0) e0).index.length = 1 := by
    have hcond : e0.dataType &&& 128 ≠ 0 ∧ e0.dataType &&& 64 = 0 ∧
        ((buildInit w0).totout + (e0.outBytes.length : Int) = 0 ∨
         (buildInit w0).totout + (e0.outBytes.length : Int) - (buildInit w0).last > span) := by
      refine ⟨h128, h64, Or.inl ?_⟩
      simp [buildInit, hout]
    unfold buildStep
    rw [if_pos hcond]
    simp [buildInit]
  have hmono := foldl_buildStep_index_le span rest (buildStep span (buildInit w0) e0)
  have hlen : 1 ≤ (build_run span w0 (e0 :: rest)).index.length := by
    unfold build_run
    rw [List.foldl_cons]
    omega
  intro hnil
  rw [hnil] at hlen
  simp at hlen

/-- Post-header boundary event used to witness the build invariants. -/
def w5e0 : BlockEv := { outBytes := [], inLen := 10, dataType := 128 }

/-- Data block event used to witness the build invariants. -/
def w5e1 : BlockEv := { outBytes := [1, 2], inLen := 20, dataType := 128 }

/-- Witness for the amended build-invariants claim on a two-event trace. -/
theorem build_run_index_invariants_witness :
    List.Chain' relOut
      ((build_run SPAN (List.replicate WINSIZE 0) (w5e0 :: [w5e1])).index.map Point.out) ∧
    (∀ p ∈ (build_run SPAN (List.replicate WINSIZE 0) (w5e0 :: [w5e1])).index, p.bits ≤ 7) ∧
    (∀ p ∈ (build_run SPAN (List.replicate WINSIZE 0) (w5e0 :: [w5e1])).index,
      p.window.length = WINSIZE) ∧
    (build_run SPAN (List.replicate WINSIZE 0) (w5e0 :: [w5e1])).index ≠ [] :=
  build_run_index_invariants SPAN (by decide) (List.replicate WINSIZE 0) (by simp)
    w5e0 [w5e1] (by decide) (by decide) (by decide)

/-- Post-header boundary event for the counterexample trace. -/
def c5e0 : BlockEv := { outBytes := [], inLen := 10, dataType := 128 }

/-- Empty deflate block (for example a sync-flush block) ending at a
boundary that still sits at uncompressed offset 0. -/
def c5e1 : BlockEv := { outBytes := [], inLen := 15, dataType := 128 }

/-- Final data block of the counterexample trace (data_type reports end of
the last block, bit 6). -/
def c5e2 : BlockEv := { outBytes := [1, 2, 3], inLen := 40, dataType := 192 }

/-- Counterexample to the claim as stated: a well-formed stream whose
first deflate block is empty makes build_index emit two access points
that both have out = 0 (one at the post-header boundary, one at the empty
block's boundary, both through the `totout == 0` disjunct), so the points
are not strictly increasing in out. -/
theorem c5_counterexample :
    ((build_run SPAN (List.replicate WINSIZE 0) [c5e0, c5e1, c5e2]).index.map Point.out
      = [0, 0]) ∧
    ¬ List.Pairwise (fun a b : Int => a < b)
      ((build_run SPAN (List.replicate WINSIZE 0) [c5e0, c5e1, c5e2]).index.map Point.out) := by
  have hmap : (build_run SPAN (List.replicate WINSIZE 0) [c5e0, c5e1, c5e2]).index.map Point.out
      = [0, 0] := by decide
  refine ⟨hmap, ?_⟩
  rw [hmap]
  decide

/-- External actions performed by extract while initializing the inflate
state from an access point (seekgzip.c lines 298-322). -/
inductive ExtractAction where
  | seekTo (pos : Int)
  | readByte
  | prime (bits value : Nat)
  | setDict (window : List Nat)
  | inflateData
deriving DecidableEq

/-- Setup sequence of extract on its selected access point (seekgzip.c
lines 307-318), on the success path (`fseeko` and `getc` succeed; `byte`
is the value getc returns at position `in_ - 1`): seek to
`here->in - (here->bits ? 1 : 0)`; if `here->bits` is nonzero, read one
byte and prime the inflater with `here->bits` and `byte >> (8 - bits)`;
then install the point's window as the dictionary. -/
def extract_prologue (p : Point) (byte : Nat) : List ExtractAction :=
  [ExtractAction.seekTo (p.in_ - (if p.bits ≠ 0 then 1 else 0))] ++
  (if p.bits ≠ 0 then
    [ExtractAction.readByte, ExtractAction.prime p.bits (byte >>> (8 - p.bits))]
  else []) ++
  [ExtractAction.setDict p.window]

/-- Full action trace of extract: the setup sequence followed by the
normal-input inflate loop (lines 324-370), abstracted as a single
marker. -/
def extract_actions (p : Point) (byte : Nat) : List ExtractAction :=
  extract_prologue p byte ++ [ExtractAction.inflateData]

/-- C6: for every access point selected by the extractor, the compressed
stream is positioned to `in - 1` when bits is nonzero and to `in`
otherwise; exactly one byte is read precisely when bits is nonzero, and
the inflater is then primed with bits and `byte >> (8 - bits)`; and the
point's window is installed as the dictionary before any normal input is
inflated. -/
theorem extract_setup_actions (p : Point) (byte : Nat) :
    ((extract_actions p byte).head? =
      some (ExtractAction.seekTo (if p.bits ≠ 0 then p.in_ - 1 else p.in_))) ∧
    ((extract_actions p byte).count ExtractAction.readByte =
      if p.bits ≠ 0 then 1 else 0) ∧
    (p.bits ≠ 0 →
      ExtractAction.prime p.bits (byte >>> (8 - p.bits)) ∈ extract_actions p byte) ∧
    (p.bits = 0 → ∀ b v, ExtractAction.prime b v ∉ extract_actions p byte) ∧
    (∃ pre, extract_actions p byte =
        pre ++ ExtractAction.setDict p.window :: [ExtractAction.inflateData] ∧
      ExtractAction.inflateData ∉ pre) := by
  by_cases h : p.bits = 0
  · refine ⟨?_, ?_, ?_, ?_, ?_⟩
    · simp [extract_actions, extract_prologue, h]
    · simp [extract_actions, extract_prologue, h, List.count_cons, List.count_append]
    · intro hb; exact absurd h hb
    · intro _ b v
      simp [extract_actions, extract_prologue, h]
    · refine ⟨[ExtractAction.seekTo (p.in_ - 0)], ?_, by simp⟩
      simp [extract_actions, extract_prologue, h]
  · refine ⟨?_, ?_, ?_, ?_, ?_⟩
    · simp [extract_actions, extract_prologue, h]
    · simp [extract_actions, extract_prologue, h, List.count_cons, List.count_append]
    · intro _
      simp [extract_actions, extract_prologue, h]
    · intro h0; exact absurd h0 h
    · refine ⟨[ExtractAction.seekTo (p.in_ - 1), ExtractAction.readByte,
        ExtractAction.prime p.bits (byte >>> (8 - p.bits))], ?_, by simp⟩
      simp [extract_actions, extract_prologue, h]

/-- Error-code translation in seekgzip_build (seekgzip.c lines 434-443):
the switch over the build_index result has no `break` statements, so
control falls through from the matched case into every following case.
`switch_from_X` models execution entering at case X and running to the end
of the switch; each case's body overwrites `ret`. -/
def switch_from_default (_ret : Int) : Int := SEEKGZIP_ERROR

/-- Fallthrough continuation from `case Z_ERRNO`. -/
def switch_from_errno (_ret : Int) : Int := switch_from_default SEEKGZIP_READERROR

/-- Fallthrough continuation from `case Z_DATA_ERROR`. -/
def switch_from_data (_ret : Int) : Int := switch_from_errno SEEKGZIP_DATAERROR

/-- Fallthrough continuation from `case Z_MEM_ERROR`. -/
def switch_from_mem (_ret : Int) : Int := switch_from_data SEEKGZIP_OUTOFMEMORY

/-- The whole switch: dispatch on the build_index result `len` to the
matching case and fall through from there. -/
def build_error_translate (len ret : Int) : Int :=
  if len = Z_MEM_ERROR then switch_from_mem ret
  else if len = Z_DATA_ERROR then switch_from_data ret
  else if len = Z_ERRNO then switch_from_errno ret
  else switch_from_default ret

/-- Environment of one seekgzip_build call: which of the fallible external
steps succeed, the build_index result, and the value returned by each
gzwrite call (seekgzip.c lines 416-493). -/
structure BuildEnv where
  fopenOk : Bool
  buildResult : Int
  indexNameOk : Bool
  gzopenOk : Bool
  gzwriteResults : List Int

/-- Index-writing phase of seekgzip_build (lines 465-476): the header
writes and the per-point record writes each return a value, and the code
discards every one of them, leaving `ret` untouched. -/
def write_phase (ret : Int) (results : List Int) : Int :=
  results.foldl (fun r _w => r) ret

/-- The seekgzip_build function (seekgzip.c lines 416-493) as a function
of its environment: open the target, build the index (translating a
negative result through the fallthrough switch), allocate the index file
name, open the index file, then write the index without checking the
write results. -/
def seekgzip_build (env : BuildEnv) : Int :=
  if !env.fopenOk then SEEKGZIP_OPENERROR
  else if env.buildResult < 0 then build_error_translate env.buildResult SEEKGZIP_SUCCESS
  else if !env.indexNameOk then SEEKGZIP_OUTOFMEMORY
  else if !env.gzopenOk then SEEKGZIP_OPENERROR
  else write_phase SEEKGZIP_SUCCESS env.gzwriteResults

/-- C7: whenever build_index fails with a negative error code, the
error-translation switch falls through its cases, so seekgzip_build
returns SEEKGZIP_ERROR and never the specific code the matched case
assigned. -/
theorem seekgzip_build_collapses_errors (env : BuildEnv)
    (hopen : env.fopenOk = true) (hneg : env.buildResult < 0) :
    seekgzip_build env = SEEKGZIP_ERROR ∧
    SEEKGZIP_ERROR ≠ SEEKGZIP_OUTOFMEMORY ∧
    SEEKGZIP_ERROR ≠ SEEKGZIP_DATAERROR ∧
    SEEKGZIP_ERROR ≠ SEEKGZIP_READERROR := by
  refine ⟨?_, by decide, by decide, by decide⟩
  unfold seekgzip_build build_error_translate switch_from_mem switch_from_data
    switch_from_errno switch_from_default
  rw [hopen]
  simp only [Bool.not_true, Bool.false_eq_true, if_false, if_pos hneg]
  split <;> try rfl
  split <;> try rfl
  split <;> rfl

/-- Witness for the error-collapse claim: a memory error from build_index
surfaces as SEEKGZIP_ERROR, not SEEKGZIP_OUTOFMEMORY. -/
theorem seekgzip_build_collapses_errors_witness :
    seekgzip_build
        { fopenOk := true, buildResult := Z_MEM_ERROR, indexNameOk := true,
          gzopenOk := true, gzwriteResults := [] } = SEEKGZIP_ERROR ∧
    SEEKGZIP_ERROR ≠ SEEKGZIP_OUTOFMEMORY ∧
    SEEKGZIP_ERROR ≠ SEEKGZIP_DATAERROR ∧
    SEEKGZIP_ERROR ≠ SEEKGZIP_READERROR :=
  seekgzip_build_collapses_errors
    { fopenOk := true, buildResult := Z_MEM_ERROR, indexNameOk := true,
      gzopenOk := true, gzwriteResults := [] } (by decide) (by decide)

/-- C10: seekgzip_build ignores every gzwrite return value, so when the
compressed stream indexes successfully (and the target and index files
open), it returns SEEKGZIP_SUCCESS for every possible sequence of gzwrite
results — including all-failing ones — and no environment whatsoever makes
it return SEEKGZIP_WRITEERROR. -/
theorem seekgzip_build_ignores_write_failures (env : BuildEnv)
    (hopen : env.fopenOk = true) (hbuild : 0 ≤ env.buildResult)
    (hname : env.indexNameOk = true) (hgz : env.gzopenOk = true) :
    seekgzip_build env = SEEKGZIP_SUCCESS ∧
    ∀ env2 : BuildEnv, seekgzip_build env2 ≠ SEEKGZIP_WRITEERROR := by
  have hwp : ∀ (r : Int) (l : List Int), write_phase r l = r := by
    intro r l
    induction l generalizing r with
    | nil => rfl
    | cons x xs ih => exact ih r
  constructor
  · unfold seekgzip_build
    rw [hopen, hname, hgz]
    simp only [Bool.not_true, Bool.false_eq_true, if_false, if_neg (not_lt.mpr hbuild)]
    exact hwp _ _
  · intro env2
    unfold seekgzip_build build_error_translate switch_from_mem switch_from_data
      switch_from_errno switch_from_default
    split
    · decide
    · split
      · split
        · decide
        · split
          · decide
          · split
            · decide
            · decide
      · split
        · decide
        · split
          · decide
          · rw [hwp]
            decide

/-- Witness for the ignored-write-failures claim: an environment whose
three gzwrite calls all fail (gzwrite returns 0) still yields
SEEKGZIP_SUCCESS. -/
theorem seekgzip_build_ignores_write_failures_witness :
    seekgzip_build
        { fopenOk := true, buildResult := 1, indexNameOk := true,
          gzopenOk := true, gzwriteResults := [0, 0, 0] } = SEEKGZIP_SUCCESS ∧
    ∀ env2 : BuildEnv, seekgzip_build env2 ≠ SEEKGZIP_WRITEERROR :=
  seekgzip_build_ignores_write_failures
    { fopenOk := true, buildResult := 1, indexNameOk := true,
      gzopenOk := true, gzwriteResults := [0, 0, 0] }
    (by decide) (by decide) (by decide) (by decide)

/-- State of the C++ reader object (export.cpp): `m_obj` holds the
underlying seekgzip session, or none after seekgzip_close has released
it.  seekgzip_close itself (seekgzip.c lines 604-615) frees the file
handle, the point list and the session when passed a non-null session. -/
structure ReaderSt where
  m_obj : Option SeekgzipT

/-- The reader close method (export.cpp lines 46-52): when `m_obj` is
non-null, call seekgzip_close on it and null the member.  The Bool records
whether seekgzip_close (the resource release) was invoked by this call. -/
def reader_close (r : ReaderSt) : ReaderSt × Bool :=
  match r.m_obj with
  | some _ => ({ m_obj := none }, true)
  | none => (r, false)

/-- C8: closing a query session is idempotent.  For every reader state, a
second close after a first close releases nothing further (seekgzip_close
is not invoked again) and leaves the state exactly as one close does:
close after close equals close. -/
theorem reader_close_idempotent (r : ReaderSt) :
    (reader_close (reader_close r).1).1 = (reader_close r).1 ∧
    (reader_close (reader_close r).1).2 = false := by
  cases h : r.m_obj <;> simp [reader_close, h]

/-- C string conversion used by `ret = buffer` in reader::read: a
std::string assigned from a char pointer takes the bytes up to the first
NUL terminator. -/
def cstringOf (buf : List Nat) : List Nat := buf.takeWhile (fun b => b ≠ 0)

/-- The reader read method on an open reader (export.cpp lines 75-90):
`delivered` is the `n`-byte prefix that seekgzip_read stored in the
buffer, after which the code sets `buffer[n] = 0` and assigns the buffer
to a std::string; `junk` is whatever uninitialized storage follows in the
`size + 1`-byte allocation. -/
def reader_read (delivered junk : List Nat) : List Nat :=
  cstringOf (delivered ++ 0 :: junk)

/-- C9: reader::read builds its result by C-string assignment from the
filled buffer, so the returned string holds exactly the delivered bytes
that precede the first zero byte: when the delivered bytes contain a zero
the bytes from that zero on are lost, and otherwise all delivered bytes
are returned (the count of bytes actually delivered is not otherwise
reported — the result is just this string). -/
theorem reader_read_truncates_at_zero (delivered junk : List Nat) :
    reader_read delivered junk = delivered.takeWhile (fun b => b ≠ 0) ∧
    (0 ∈ delivered →
      reader_read delivered junk = delivered.takeWhile (fun b => b ≠ 0)) ∧
    (0 ∉ delivered → reader_read delivered junk = delivered) := by
  have hmain : reader_read delivered junk = delivered.takeWhile (fun b => b ≠ 0) := by
    unfold reader_read cstringOf
    induction delivered with
    | nil => simp
    | cons d ds ih =>
      by_cases hd : d = 0
      · subst hd
        simp [List.takeWhile_cons]
      · simp only [List.cons_append, List.takeWhile_cons]
        rw [if_pos (by simp [hd]), if_pos (by simp [hd]), ih]
  refine ⟨hmain, fun _ => hmain, ?_⟩
  intro h0
  rw [hmain]
  apply List.takeWhile_eq_self_iff.mpr
  intro x hx
  simp only [ne_eq, decide_eq_true_eq]
  intro hx0
  subst hx0
  exact h0 hx

end Seekgzip
